import Mathlib

/-!
Verification of `tfjs-core/src/util.ts` (data-normalization core):
flattening of nested inputs, dtype coercion to canonical typed buffers,
scalar encoding and the text codec.

Numbers are modelled as exact rationals (`ℚ`); the JavaScript value `NaN`
is modelled as `none` in `Option ℚ`.  IEEE-754 float32 rounding performed
by `new Float32Array(...)` is not modelled (`fround` is the identity on the
rational model); none of the verified properties depend on float32
precision.
-/

namespace TfjsUtil

/-- The dtype strings accepted by `toTypedArray` / `createScalarValue`
(`DataType` in `types.ts`): `float32`, `int32`, `bool`, `complex64`,
`string`. -/
inductive DType where
  | float32
  | int32
  | boolDt
  | complex64
  | strDt
deriving DecidableEq, Repr

/-- A homogeneous typed buffer (`Float32Array`, `Int32Array`, `Uint8Array`).
`f32` elements are `Option ℚ` so that a stored `NaN` is representable
(`none`); `Int32Array` and `Uint8Array` elements can never be `NaN`. -/
inductive TypedArr where
  | f32 (xs : List (Option ℚ))
  | i32 (xs : List ℤ)
  | u8 (xs : List ℕ)
deriving DecidableEq, Repr

/-- A nested input value (`TensorLike` / `RecursiveArray` leaves):
scalar leaves (number, boolean, string, a pending `Promise`, or
`null`/`undefined`), typed buffers, true JS arrays, and array-like
objects given by their enumerable string keys. -/
inductive Nested where
  | leafNum (q : ℚ)
  | leafNaN
  | leafBool (b : Bool)
  | leafStr (s : String)
  | leafPromise
  | leafNull
  | typed (t : TypedArr)
  | arr (xs : List Nested)
  | obj (kvs : List (String × Nested))
deriving Repr

/-- A leaf value appended to `flatten`'s result array. -/
inductive Leaf where
  | num (q : ℚ)
  | nanLeaf
  | boolv (b : Bool)
  | str (s : String)
  | promiseLeaf
  | undef
  | typedLeaf (t : TypedArr)
deriving DecidableEq, Repr

/-- The regex `^([1-9]+[0-9]*|0)$` used by `flatten` on array-like
objects: the key is `"0"`, or a nonempty digit string whose first
character is in `1`–`9`. -/
def isNonNegIntKey (s : String) : Bool :=
  s = "0" ||
    (match s.data with
     | [] => false
     | c :: rest =>
         ('1' ≤ c && c ≤ '9') && rest.all (fun d => '0' ≤ d && d ≤ '9'))

/-- `Number(key)` for a key matching the regex: its decimal value. -/
def keyNat (s : String) : ℕ :=
  s.data.foldl (fun a c => 10 * a + (c.toNat - '0'.toNat)) 0

/-- The loop body of the `maxIndex` computation:
`maxIndex = Math.max(maxIndex, Number(key))` for a key matching the
non-negative-integer regex, identity otherwise. -/
def objMaxStep (m : ℤ) (kv : String × Nested) : ℤ :=
  if isNonNegIntKey kv.1 then
    (if m < Int.ofNat (keyNat kv.1) then Int.ofNat (keyNat kv.1) else m)
  else m

/-- The `maxIndex` computation of `flatten`'s array-like-object branch:
starting from `-1`, take the maximum over `Number(key)` of every
enumerable key matching the non-negative-integer regex. -/
def objMaxIndex (kvs : List (String × Nested)) : ℤ :=
  kvs.foldl objMaxStep (-1)

/-- Elements of a typed buffer, as JS numbers (`none` = `NaN`). -/
def typedNums : TypedArr → List (Option ℚ)
  | .f32 xs => xs
  | .i32 xs => xs.map (fun z => some (z : ℚ))
  | .u8 xs => xs.map (fun n => some (n : ℚ))

mutual

/-- `flatten(arr, result, skipTypedArray)` from `util.ts`, with the result
accumulator made implicit (the source only ever appends).  Scalars,
promises and `null`/`undefined` are pushed as leaves; a typed buffer is a
leaf when `skipTypedArray` is set, otherwise it is iterated
element-by-element; a true array is iterated by index; any other object is
iterated densely from index `0` up to the maximum integer-like enumerable
key. -/
def flatten : Nested → Bool → List Leaf
  | .leafNum q, _ => [.num q]
  | .leafNaN, _ => [.nanLeaf]
  | .leafBool b, _ => [.boolv b]
  | .leafStr s, _ => [.str s]
  | .leafPromise, _ => [.promiseLeaf]
  | .leafNull, _ => [.undef]
  | .typed t, skip =>
      if skip then [.typedLeaf t] else (typedNums t).map (fun x => x.elim .nanLeaf .num)
  | .arr xs, skip => flattenList xs skip
  | .obj kvs, skip =>
      (List.range (objMaxIndex kvs + 1).toNat).flatMap
        (fun i => flattenKey kvs (toString i) skip)

/-- The `for (let i = 0; i < arr.length; ++i) flatten(arr[i], ...)` loop. -/
def flattenList : List Nested → Bool → List Leaf
  | [], _ => []
  | x :: rest, skip => flatten x skip ++ flattenList rest skip

/-- Property access `arr[i]` on an array-like object followed by the
recursive `flatten` call: the first binding of the key is flattened, and
an absent key reads as `undefined`, i.e. a `undef` leaf. -/
def flattenKey : List (String × Nested) → String → Bool → List Leaf
  | [], _, _ => [.undef]
  | (k, v) :: rest, key, skip =>
      if k = key then flatten v skip else flattenKey rest key skip

end

/-- `Math.round` on a finite number: round half toward positive infinity,
i.e. `⌊q + 1/2⌋`, computed exactly on rationals as
`(2 * num + den).fdiv (2 * den)`. -/
def jsRound (q : ℚ) : ℤ := Int.fdiv (2 * q.num + (q.den : ℤ)) (2 * (q.den : ℤ))

/-- Truncation toward zero of a rational. -/
def ratTrunc (q : ℚ) : ℤ :=
  if 0 ≤ q.num then Int.fdiv q.num (q.den : ℤ) else -(Int.fdiv (-q.num) (q.den : ℤ))

/-- JavaScript `ToInt32` on a JS number (`none` = `NaN`): `NaN` maps to
`0`; a finite value is truncated toward zero, reduced modulo `2^32` and
reinterpreted in `[-2^31, 2^31)`.  This is the element conversion
performed by `new Int32Array(...)`. -/
def toInt32 : Option ℚ → ℤ
  | none => 0
  | some q =>
      let m := ratTrunc q % 4294967296
      if 2147483648 ≤ m then m - 4294967296 else m

/-- The element conversion of `new Float32Array(...)`.  IEEE-754 float32
rounding is not modelled: numbers are exact rationals, so this is the
identity; no verified property depends on float32 precision. -/
def fround (x : Option ℚ) : Option ℚ := x

/-- The test `Math.round(a[i]) !== 0` of the `bool` branch.  `Math.round`
of `NaN` (or of `undefined`, a promise or an unparseable string, whose
`ToNumber` is `NaN`) is `NaN`, and `NaN !== 0` is true. -/
def roundedNonzero : Option ℚ → Bool
  | none => true
  | some q => jsRound q != 0

/-- JavaScript `ToNumber` applied to a flattened leaf, as the typed-array
constructors do element-wise.  Booleans map to `0`/`1`, `undefined` and
promises to `NaN`.  For strings only the fragment needed here is
modelled: the empty string is `0`, a pure digit string its decimal value,
anything else `NaN`; no verified property converts string leaves
numerically.  A typed-array leaf can only arise with
`skipTypedArray = true`, which `toTypedArray` never uses; it is mapped to
`NaN`. -/
def leafToNum : Leaf → Option ℚ
  | .num q => some q
  | .nanLeaf => none
  | .boolv b => some (if b then 1 else 0)
  | .str s =>
      if s = "" then some 0
      else if s.data.all (fun d => '0' ≤ d && d ≤ '9') then some ((keyNat s : ℤ) : ℚ)
      else none
  | .promiseLeaf => none
  | .undef => none
  | .typedLeaf _ => none

/-- `noConversionNeeded(a, dtype)` from `util.ts`, on the typed-buffer
side of the input (a flattened plain array is never an instance of a
typed-array class, so for it the source function is identically false,
which the structure of `toTypedArray` below encodes). -/
def noConversionNeeded (t : TypedArr) (dtype : Option DType) : Bool :=
  match t, dtype with
  | .f32 _, some .float32 => true
  | .i32 _, some .int32 => true
  | .u8 _, some .boolDt => true
  | _, _ => false

/-- Largest finite float32, `(2 - 2^-23) * 2^127`, as a rational. -/
def f32Max : ℚ := ((2 ^ 24 - 1) * 2 ^ 104 : ℤ)

/-- Modelled from the spec: whether one value can be faithfully
represented in the target numeric type, the per-element test of the Debug
Validator (`checkConversionForErrors` lives in `util_base.ts`, which is
not among the provided sources; spec §4.2).  Per the spec's words: a
non-integer value or one outside `[-2^31, 2^31 - 1]` cannot be faithfully
represented as Int32; a magnitude outside the float32 range cannot be
represented as Float32/Complex64; `NaN` is representable in no numeric
target; every value has a well-defined boolean byte, so the BoolByte
target accepts everything. -/
def representable (x : Option ℚ) : Option DType → Bool
  | some .int32 =>
      match x with
      | none => false
      | some q => q.den == 1 && decide (-(2 ^ 31) ≤ q.num) && decide (q.num ≤ 2 ^ 31 - 1)
  | some .boolDt => true
  | _ =>
      match x with
      | none => false
      | some q => decide (-f32Max ≤ q) && decide (q ≤ f32Max)

/-- Modelled from the spec: the Debug Validator scan over a numeric
sequence (spec §4.2); succeeds iff every value is representable. -/
def checkConversionForErrors (nums : List (Option ℚ)) (dtype : Option DType) : Bool :=
  nums.all (fun x => representable x dtype)

/-- The error conditions `toTypedArray` can raise. -/
inductive ConvErr where
  | cannotConvertString
  | conversionError
  | unknownType
deriving DecidableEq, Repr

deriving instance DecidableEq for Except

/-- The element-wise conversion branches of `toTypedArray` (after the
string check, flattening, debug validation and the fast path):
`dtype == null || dtype === 'float32' || dtype === 'complex64'` builds a
`Float32Array`, `'int32'` an `Int32Array`, `'bool'` a `Uint8Array` whose
byte is 1 exactly when `Math.round` of the element is nonzero; the final
branch (`Unknown data type`) is unreachable for the closed dtype
enumeration since `'string'` is rejected before it. -/
def convertNums (nums : List (Option ℚ)) (dtype : Option DType) : Except ConvErr TypedArr :=
  match dtype with
  | none | some .float32 | some .complex64 => .ok (.f32 (nums.map fround))
  | some .int32 => .ok (.i32 (nums.map toInt32))
  | some .boolDt => .ok (.u8 (nums.map (fun x => if roundedNonzero x then 1 else 0)))
  | some .strDt => .error .unknownType

/-- The input of `toTypedArray` (`TensorLike`): a true JS array of nested
values, or an already-typed buffer. -/
inductive TensorLike where
  | array (xs : List Nested)
  | typed (t : TypedArr)

/-- `toTypedArray(a, dtype)` from `util.ts`, with the `DEBUG` flag read
(`env().getBool('DEBUG')`) threaded as an explicit argument.  Order of
the source: reject `'string'`; flatten when the input is a true array
(with `skipTypedArray = false`); validate when `DEBUG` is set; return the
input unchanged when no conversion is needed; otherwise convert
element-wise into a freshly built buffer. -/
def toTypedArray (a : TensorLike) (dtype : Option DType) (debug : Bool) :
    Except ConvErr TypedArr :=
  if dtype = some .strDt then .error .cannotConvertString
  else
    match a with
    | .array xs =>
        let nums := (flattenList xs false).map leafToNum
        if debug && !(checkConversionForErrors nums dtype) then .error .conversionError
        else convertNums nums dtype
    | .typed t =>
        if debug && !(checkConversionForErrors (typedNums t) dtype) then
          .error .conversionError
        else if noConversionNeeded t dtype then .ok t
        else convertNums (typedNums t) dtype

/-- The Platform collaborator's text primitives (`env().platform.encode`
/ `env().platform.decode`): bytes for a string under a named encoding and
back. -/
structure Platform where
  encode : String → String → List ℕ
  decode : List ℕ → String → String

/-- `encodeString(s, encoding = 'utf-8')` from `util.ts`: an omitted
(`none`) encoding takes the default parameter, and the
`encoding = encoding || 'utf-8'` line additionally maps the falsy empty
string to `'utf-8'`; then the call delegates to the platform's `encode`. -/
def encodeString (p : Platform) (s : String) (encoding : Option String) : List ℕ :=
  let enc :=
    match encoding with
    | none => "utf-8"
    | some e => if e = "" then "utf-8" else e
  p.encode s enc

/-- `decodeString(bytes, encoding = 'utf-8')` from `util.ts`: same
default-encoding normalization, then delegation to the platform's
`decode`. -/
def decodeString (p : Platform) (bytes : List ℕ) (encoding : Option String) : String :=
  let enc :=
    match encoding with
    | none => "utf-8"
    | some e => if e = "" then "utf-8" else e
  p.decode bytes enc

/-- The `BackendValues` result of `createScalarValue`: a numeric typed
buffer, or the byte sequence of an encoded string. -/
inductive BackendValues where
  | typed (t : TypedArr)
  | bytes (bs : List ℕ)
deriving DecidableEq, Repr

/-- The string content of a scalar value.  The `'string'` branch of
`createScalarValue` is only ever taken with a string value (the value and
the dtype travel together); non-string scalars are mapped to the empty
string. -/
def strVal : Nested → String
  | .leafStr s => s
  | _ => ""

/-- `createScalarValue(value, dtype)` from `util.ts`: for `'string'`,
delegate to `encodeString` with the encoding argument omitted; otherwise
wrap the value in a one-element array and delegate to `toTypedArray`. -/
def createScalarValue (p : Platform) (value : Nested) (dtype : DType) (debug : Bool) :
    Except ConvErr BackendValues :=
  if dtype = .strDt then .ok (.bytes (encodeString p (strVal value) none))
  else (toTypedArray (.array [value]) (some dtype) debug).map .typed

/-! Specification-side definitions, written from the spec's wording and
used to state the verified properties independently of the embedded
source functions. -/

mutual

/-- Whether a nested tree contains no array-like object anywhere. -/
def hasNoObj : Nested → Bool
  | .arr xs => hasNoObjList xs
  | .obj _ => false
  | _ => true

/-- `hasNoObj` over the children of an array node. -/
def hasNoObjList : List Nested → Bool
  | [] => true
  | x :: rest => hasNoObj x && hasNoObjList rest

end

mutual

/-- The depth-first, left-to-right sequence of scalar leaves of a tree
with no array-like objects (the spec's description of `flatten`'s
result); on an array-like object it is not specified by the claim and
returns `[]`. -/
def scalarLeaves : Nested → Bool → List Leaf
  | .leafNum q, _ => [.num q]
  | .leafNaN, _ => [.nanLeaf]
  | .leafBool b, _ => [.boolv b]
  | .leafStr s, _ => [.str s]
  | .leafPromise, _ => [.promiseLeaf]
  | .leafNull, _ => [.undef]
  | .typed t, skip =>
      if skip then [.typedLeaf t] else (typedNums t).map (fun x => x.elim .nanLeaf .num)
  | .arr xs, skip => scalarLeavesList xs skip
  | .obj _, _ => []

/-- `scalarLeaves` over the children of an array node, left to right. -/
def scalarLeavesList : List Nested → Bool → List Leaf
  | [], _ => []
  | x :: rest, skip => scalarLeaves x skip ++ scalarLeavesList rest skip

end

mutual

/-- The number of scalar leaves of a tree with no array-like objects: one
per scalar, and one per element of a typed buffer that is being iterated
(`skipTypedArray = false`). -/
def leafCount : Nested → Bool → ℕ
  | .typed t, skip => if skip then 1 else (typedNums t).length
  | .arr xs, skip => leafCountList xs skip
  | .obj _, _ => 0
  | _, _ => 1

/-- `leafCount` summed over the children of an array node. -/
def leafCountList : List Nested → Bool → ℕ
  | [], _ => 0
  | x :: rest, skip => leafCount x skip + leafCountList rest skip

end

/-- Property lookup on an array-like object: the first binding of the
key, if any. -/
def objGet : List (String × Nested) → String → Option Nested
  | [], _ => none
  | (k, v) :: rest, key => if k = key then some v else objGet rest key

/-- The values `Number(key)` of the enumerable keys matching the
non-negative-integer pattern, in key order. -/
def matchingKeys (kvs : List (String × Nested)) : List ℕ :=
  kvs.filterMap (fun kv => if isNonNegIntKey kv.1 then some (keyNat kv.1) else none)

/-- Standard truncation toward zero of a real (rational) value, as the
spec states the Int32 narrowing: ceiling for negative values, floor
otherwise. -/
def truncSpec (q : ℚ) : ℤ := if q < 0 then ⌈q⌉ else ⌊q⌋

/-- A concrete Platform whose codec is invertible: characters to code
points and back. -/
def charPlatform : Platform :=
  ⟨fun s _ => s.data.map Char.toNat, fun bs _ => String.mk (bs.map Char.ofNat)⟩

/-- A degenerate concrete Platform (the numeric paths never consult the
platform codec). -/
def trivPlatform : Platform :=
  ⟨fun _ _ => [], fun _ _ => ""⟩

/-! Helper lemmas. -/

theorem flattenList_map_leafNum (xs : List ℚ) (skip : Bool) :
    flattenList (xs.map .leafNum) skip = xs.map .num := by
  induction xs with
  | nil => simp [flattenList]
  | cons q rest ih => simp [flattenList, flatten, ih]

theorem flattenKey_eq_objGet (kvs : List (String × Nested)) (key : String) (skip : Bool) :
    flattenKey kvs key skip
      = (match objGet kvs key with
         | some v => flatten v skip
         | none => [.undef]) := by
  induction kvs with
  | nil => simp [flattenKey, objGet]
  | cons kv rest ih =>
      obtain ⟨k, v⟩ := kv
      by_cases h : k = key
      · simp [flattenKey, objGet, h]
      · simp [flattenKey, objGet, h, ih]

theorem ifMax (m k : ℤ) : (if m < k then k else m) = max m k := by
  rcases lt_or_le m k with h | h
  · rw [if_pos h, max_eq_right h.le]
  · rw [if_neg (not_lt.mpr h), max_eq_left h]

theorem objMaxStep_pos (m : ℤ) (kv : String × Nested) (h : isNonNegIntKey kv.1 = true) :
    objMaxStep m kv = max m (Int.ofNat (keyNat kv.1)) := by
  rw [objMaxStep, if_pos h, ifMax]

theorem objMaxStep_neg (m : ℤ) (kv : String × Nested) (h : isNonNegIntKey kv.1 = false) :
    objMaxStep m kv = m := by
  rw [objMaxStep, h]
  simp

theorem objMaxIndex_foldl_aux (kvs : List (String × Nested)) :
    ∀ m : ℤ, -1 ≤ m →
      kvs.foldl objMaxStep m
        = max m ((matchingKeys kvs).foldr (fun k z => max (Int.ofNat k) z) (-1)) := by
  induction kvs with
  | nil => intro m hm; simp [matchingKeys]; omega
  | cons kv rest ih =>
      intro m hm
      rw [List.foldl_cons]
      by_cases h : isNonNegIntKey kv.1
      · rw [objMaxStep_pos m kv h, ih _ (le_trans hm (le_max_left _ _))]
        simp only [matchingKeys, List.filterMap_cons, h, if_true, List.foldr_cons]
        rw [max_assoc]
      · rw [objMaxStep_neg m kv (by simpa using h), ih _ hm]
        congr 1
        simp [matchingKeys, List.filterMap_cons, h]

theorem foldrMax_ge_negOne (l : List ℕ) :
    -1 ≤ l.foldr (fun k z => max (Int.ofNat k) z) (-1) := by
  induction l with
  | nil => simp
  | cons k rest ih => exact le_trans ih (by simp [le_max_right])

theorem objMaxIndex_eq_matching (kvs : List (String × Nested)) :
    objMaxIndex kvs = (matchingKeys kvs).foldr (fun k z => max (Int.ofNat k) z) (-1) := by
  rw [objMaxIndex, objMaxIndex_foldl_aux kvs (-1) le_rfl,
    max_eq_right (foldrMax_ge_negOne _)]

theorem ratTrunc_eq_truncSpec (q : ℚ) : ratTrunc q = truncSpec q := by
  rcases le_or_lt 0 q with h | h
  · rw [ratTrunc, if_pos (Rat.num_nonneg.mpr h), truncSpec, if_neg (not_lt.mpr h)]
    rw [Int.fdiv_eq_ediv _ (by positivity), Rat.floor_def]
  · rw [ratTrunc, if_neg (by simpa [Rat.num_nonneg] using h), truncSpec, if_pos h]
    rw [Int.fdiv_eq_ediv _ (by positivity)]
    have hfl : ⌊-q⌋ = (-q).num / ((-q).den : ℤ) := Rat.floor_def
    rw [Rat.num_neg_eq_neg_num, Rat.den_neg_eq_den] at hfl
    rw [← hfl, Int.floor_neg, neg_neg]

theorem jsRound_eq_round (q : ℚ) : jsRound q = round q := by
  have hden : (0 : ℤ) < (q.den : ℤ) := by exact_mod_cast q.den_pos
  have hd : ((q.den : ℚ)) ≠ 0 := by positivity
  have hnum : (q.num : ℚ) = q * (q.den : ℚ) := (div_eq_iff hd).mp (Rat.num_div_den q)
  rw [jsRound, round_eq, Int.fdiv_eq_ediv _ (by positivity)]
  have hq : q + 1 / 2 = ((2 * q.num + (q.den : ℤ) : ℤ) : ℚ) / ((2 * q.den : ℕ) : ℚ) := by
    rw [eq_div_iff (by positivity)]
    push_cast
    linear_combination (-2 : ℚ) * hnum
  rw [hq, Rat.floor_intCast_div_natCast]
  push_cast
  rfl

theorem toInt32_eq_truncSpec (q : ℚ) (h1 : -2147483648 ≤ truncSpec q)
    (h2 : truncSpec q ≤ 2147483647) : toInt32 (some q) = truncSpec q := by
  simp only [toInt32, ratTrunc_eq_truncSpec]
  split <;> omega

theorem flatten_eq_scalarLeaves :
    ∀ (t : Nested) (skip : Bool), hasNoObj t = true →
      flatten t skip = scalarLeaves t skip := by
  apply flatten.induct
    (fun t skip => hasNoObj t = true → flatten t skip = scalarLeaves t skip)
    (fun _ _ _ => True)
    (fun xs skip => hasNoObjList xs = true → flattenList xs skip = scalarLeavesList xs skip)
  all_goals intros
  all_goals try trivial
  all_goals simp_all [flatten, flattenList, scalarLeaves, scalarLeavesList,
    hasNoObj, hasNoObjList]

theorem scalarLeaves_len :
    ∀ (t : Nested) (skip : Bool), (scalarLeaves t skip).length = leafCount t skip := by
  apply scalarLeaves.induct
    (fun t skip => (scalarLeaves t skip).length = leafCount t skip)
    (fun xs skip => (scalarLeavesList xs skip).length = leafCountList xs skip)
  all_goals intros
  all_goals simp_all [scalarLeaves, scalarLeavesList, leafCount, leafCountList]

/-! The verified properties. -/

/-- Claim C1: on every nested input tree containing no array-like
objects, `flatten` returns exactly the depth-first left-to-right sequence
of scalar leaves, whose length is the number of scalar leaves of the
tree; in particular `flatten([[1,2],[3,[4,[5]]]])` is `[1,2,3,4,5]`. -/
theorem flatten_noObj_dfs :
    (∀ (t : Nested) (skip : Bool), hasNoObj t = true →
        flatten t skip = scalarLeaves t skip
        ∧ (flatten t skip).length = leafCount t skip)
    ∧ flatten (.arr [.arr [.leafNum 1, .leafNum 2],
        .arr [.leafNum 3, .arr [.leafNum 4, .arr [.leafNum 5]]]]) false
      = [.num 1, .num 2, .num 3, .num 4, .num 5] := by
  constructor
  · intro t skip h
    have he := flatten_eq_scalarLeaves t skip h
    exact ⟨he, by rw [he, scalarLeaves_len]⟩
  · simp [flatten, flattenList]

theorem flatten_noObj_dfs_witness :
    hasNoObj (.arr [.leafNum 1, .leafBool true, .leafStr "a"]) = true
    ∧ (flatten (.arr [.leafNum 1, .leafBool true, .leafStr "a"]) false
        = scalarLeaves (.arr [.leafNum 1, .leafBool true, .leafStr "a"]) false
      ∧ (flatten (.arr [.leafNum 1, .leafBool true, .leafStr "a"]) false).length
        = leafCount (.arr [.leafNum 1, .leafBool true, .leafStr "a"]) false) :=
  ⟨by simp [hasNoObj, hasNoObjList],
   flatten_noObj_dfs.1 _ false (by simp [hasNoObj, hasNoObjList])⟩

/-- Claim C2: on an array-like object, only enumerable keys matching the
non-negative-integer pattern feed the iteration bound (`maxIndex` is the
maximum matching key, `-1` when there is none); `flatten` then iterates
indices `0` through `maxIndex`, flattening the value bound at each index
and contributing an `undefined` leaf at every absent index; in particular
`flatten({0:'a', 2:'c'})` is `['a', undefined, 'c']`. -/
theorem flatten_arrayLike_dense :
    (∀ kvs : List (String × Nested),
        objMaxIndex kvs
          = (matchingKeys kvs).foldr (fun k z => max (Int.ofNat k) z) (-1))
    ∧ (∀ (kvs : List (String × Nested)) (skip : Bool),
        flatten (.obj kvs) skip
          = (List.range ((objMaxIndex kvs + 1).toNat)).flatMap (fun i =>
              match objGet kvs (toString i) with
              | some v => flatten v skip
              | none => [.undef]))
    ∧ flatten (.obj [("0", .leafStr "a"), ("2", .leafStr "c")]) false
        = [.str "a", .undef, .str "c"] := by
  refine ⟨objMaxIndex_eq_matching, fun kvs skip => ?_, ?_⟩
  · simp only [flatten, flattenKey_eq_objGet]
  · simp only [flatten, flattenKey]
    decide

/-- Claim C3: coercing a numeric sequence to `'bool'` stores, per
position, byte `1` exactly when the element rounded to the nearest
integer is nonzero, else `0`; in particular
`toTypedArray([0, 0.4, -0.4, 1, -1], 'bool')` is the byte buffer
`[0, 0, 0, 1, 1]`. -/
theorem toTypedArray_bool_round :
    (∀ xs : List ℚ,
        toTypedArray (.array (xs.map .leafNum)) (some .boolDt) false
          = .ok (.u8 (xs.map (fun q => if round q ≠ 0 then 1 else 0))))
    ∧ toTypedArray (.array [.leafNum 0, .leafNum (2/5), .leafNum (-(2/5)),
        .leafNum 1, .leafNum (-1)]) (some .boolDt) false
      = .ok (.u8 [0, 0, 0, 1, 1]) := by
  constructor
  · intro xs
    have h1 : toTypedArray (.array (xs.map .leafNum)) (some .boolDt) false
        = convertNums ((flattenList (xs.map .leafNum) false).map leafToNum)
            (some .boolDt) := rfl
    have h2 : ∀ q : ℚ,
        (if roundedNonzero (leafToNum (Leaf.num q)) then (1 : ℕ) else 0)
          = (if round q ≠ 0 then 1 else 0) := by
      intro q
      simp only [leafToNum, roundedNonzero, jsRound_eq_round, bne_iff_ne]
    rw [h1, flattenList_map_leafNum]
    simp only [convertNums, List.map_map, Function.comp_def, h2]
  · simp only [toTypedArray, flattenList, flatten]
    norm_num [leafToNum, convertNums, roundedNonzero, jsRound]
    decide

/-- Claim C4: when the input is already a typed buffer whose element type
matches the target dtype exactly, `toTypedArray` returns the very same
buffer (the model is pure, so returning the input value captures the
source's `return a`: no copy, no new allocation, no mutation). -/
theorem toTypedArray_fastPath :
    (∀ xs : List (Option ℚ),
        toTypedArray (.typed (.f32 xs)) (some .float32) false = .ok (.f32 xs))
    ∧ (∀ ys : List ℤ,
        toTypedArray (.typed (.i32 ys)) (some .int32) false = .ok (.i32 ys))
    ∧ (∀ zs : List ℕ,
        toTypedArray (.typed (.u8 zs)) (some .boolDt) false = .ok (.u8 zs)) := by
  refine ⟨fun xs => ?_, fun ys => ?_, fun zs => ?_⟩ <;>
    simp [toTypedArray, noConversionNeeded]

/-- Claim C5: coercing a numeric sequence to `'int32'` narrows each
element by standard truncation toward zero (ceiling for negatives, floor
otherwise), not rounding; in particular
`toTypedArray([1.5, -2.7, 0], 'int32')` is the buffer `[1, -2, 0]`. -/
theorem toTypedArray_int32_trunc :
    (∀ xs : List ℚ,
        (∀ q ∈ xs, -2147483648 ≤ truncSpec q ∧ truncSpec q ≤ 2147483647) →
        toTypedArray (.array (xs.map .leafNum)) (some .int32) false
          = .ok (.i32 (xs.map truncSpec)))
    ∧ toTypedArray (.array [.leafNum (3/2), .leafNum (-(27/10)), .leafNum 0])
        (some .int32) false
      = .ok (.i32 [1, -2, 0]) := by
  constructor
  · intro xs hx
    have h1 : toTypedArray (.array (xs.map .leafNum)) (some .int32) false
        = convertNums ((flattenList (xs.map .leafNum) false).map leafToNum)
            (some .int32) := rfl
    rw [h1, flattenList_map_leafNum]
    simp only [convertNums, List.map_map, Function.comp_def]
    refine congrArg _ (congrArg _ (List.map_congr_left fun q hq => ?_))
    simpa [leafToNum] using toInt32_eq_truncSpec q (hx q hq).1 (hx q hq).2
  · simp only [toTypedArray, flattenList, flatten]
    norm_num [leafToNum, convertNums, toInt32, ratTrunc]
    decide

theorem toTypedArray_int32_trunc_witness :
    (∀ q ∈ [(3 : ℚ)/2, -(27/10), 0],
        -2147483648 ≤ truncSpec q ∧ truncSpec q ≤ 2147483647)
    ∧ toTypedArray (.array ([(3 : ℚ)/2, -(27/10), 0].map .leafNum))
        (some .int32) false
      = .ok (.i32 ([(3 : ℚ)/2, -(27/10), 0].map truncSpec)) :=
  ⟨by intro q hq; fin_cases hq <;> norm_num [truncSpec, Int.le_ceil_iff, Int.ceil_le],
   toTypedArray_int32_trunc.1 _
     (by intro q hq; fin_cases hq <;> norm_num [truncSpec, Int.le_ceil_iff, Int.ceil_le])⟩

/-- Claim C6: `toTypedArray` fails with the `'Cannot convert a string[]
to a TypedArray'` condition for every input whenever the target dtype is
`'string'`; the numeric conversion branches are never reached. -/
theorem toTypedArray_string_error :
    ∀ (a : TensorLike) (debug : Bool),
      toTypedArray a (some .strDt) debug = .error .cannotConvertString := by
  intro a debug
  simp [toTypedArray]

/-- Claim C7: with the debug flag enabled, `toTypedArray([1e40],
'int32')` fails the range validation and returns no buffer at all (the
error is raised before any conversion output exists in the `Except`
model); with the flag disabled the very same call succeeds and performs
the deterministic truncating conversion (`10^40` truncates and wraps to
`0` modulo `2^32`). -/
theorem toTypedArray_debug_validation :
    toTypedArray (.array [.leafNum (10 ^ 40)]) (some .int32) true
        = .error .conversionError
    ∧ toTypedArray (.array [.leafNum (10 ^ 40)]) (some .int32) false
        = .ok (.i32 [0]) := by
  constructor
  · simp only [toTypedArray, flattenList, flatten]
    norm_num [leafToNum, checkConversionForErrors, representable]
    decide
  · simp only [toTypedArray, flattenList, flatten]
    norm_num [leafToNum, convertNums, toInt32, ratTrunc]
    decide

/-- Claim C8: provided the Platform codec inverts itself under any fixed
encoding (its stated contract), `encodeString` followed by `decodeString`
with the same encoding argument is the identity on every string; and in
both functions an omitted or empty (falsy) encoding argument is
normalized to `'utf-8'` before delegating to the platform. -/
theorem encode_decode_roundTrip (p : Platform)
    (hp : ∀ s e, p.decode (p.encode s e) e = s) :
    (∀ (s : String) (enc : Option String),
        decodeString p (encodeString p s enc) enc = s)
    ∧ (∀ s : String,
        encodeString p s none = encodeString p s (some "utf-8")
        ∧ encodeString p s (some "") = encodeString p s (some "utf-8"))
    ∧ (∀ bs : List ℕ,
        decodeString p bs none = decodeString p bs (some "utf-8")
        ∧ decodeString p bs (some "") = decodeString p bs (some "utf-8")) := by
  refine ⟨fun s enc => ?_, fun s => ⟨rfl, by simp [encodeString]⟩,
    fun bs => ⟨rfl, by simp [decodeString]⟩⟩
  cases enc with
  | none => simpa [encodeString, decodeString] using hp s "utf-8"
  | some e =>
      by_cases he : e = ""
      · simp [encodeString, decodeString, he, hp]
      · simp [encodeString, decodeString, he, hp]

theorem encode_decode_roundTrip_witness :
    decodeString charPlatform
        (encodeString charPlatform "tfjs" (some "ascii")) (some "ascii")
      = "tfjs" :=
  (encode_decode_roundTrip charPlatform
      (by
        intro s e
        show String.mk ((s.data.map Char.toNat).map Char.ofNat) = s
        rw [List.map_map]
        simp [Function.comp_def, Char.ofNat_toNat])).1
    "tfjs" (some "ascii")

/-- Claim C9: for every non-`'string'` dtype, `createScalarValue` is
exactly `toTypedArray` applied to the one-element array `[value]` (scalar
and vector encoding share the one coercion algorithm); for `'string'` it
is exactly `encodeString` of the value with the encoding argument
omitted. -/
theorem createScalarValue_delegates :
    (∀ (p : Platform) (v : Nested) (dtype : DType) (debug : Bool),
        dtype ≠ .strDt →
        createScalarValue p v dtype debug
          = (toTypedArray (.array [v]) (some dtype) debug).map .typed)
    ∧ (∀ (p : Platform) (s : String) (debug : Bool),
        createScalarValue p (.leafStr s) .strDt debug
          = .ok (.bytes (encodeString p s none))) := by
  refine ⟨fun p v dtype debug h => ?_, fun p s debug => ?_⟩
  · simp [createScalarValue, h]
  · simp [createScalarValue, strVal]

theorem createScalarValue_delegates_witness :
    DType.int32 ≠ DType.strDt
    ∧ createScalarValue trivPlatform (.leafNum 7) .int32 false
        = (toTypedArray (.array [.leafNum 7]) (some .int32) false).map .typed :=
  ⟨by decide,
   createScalarValue_delegates.1 trivPlatform (.leafNum 7) .int32 false (by decide)⟩

/-- Claim C10: a key feeds the iteration bound only when it exactly
matches the decimal non-negative-integer pattern with no leading zeros
(regex `^([1-9]+[0-9]*|0)$`): keys like `'01'`, `'-1'` or `'1.5'` are
ignored by the `maxIndex` computation, so `flatten({'01':'x'})` is empty
while `flatten({'01':'x', '1':'y'})` is `[undefined, 'y']`. -/
theorem flatten_integerKey_pattern :
    (isNonNegIntKey "01" = false ∧ isNonNegIntKey "-1" = false
      ∧ isNonNegIntKey "1.5" = false)
    ∧ (∀ (k : String) (v : Nested) (kvs : List (String × Nested)),
        isNonNegIntKey k = false →
        objMaxIndex ((k, v) :: kvs) = objMaxIndex kvs)
    ∧ flatten (.obj [("01", .leafStr "x")]) false = []
    ∧ flatten (.obj [("01", .leafStr "x"), ("1", .leafStr "y")]) false
        = [.undef, .str "y"] := by
  refine ⟨by decide, fun k v kvs h => ?_, ?_, ?_⟩
  · rw [objMaxIndex, objMaxIndex, List.foldl_cons, objMaxStep_neg _ _ h]
  · simp only [flatten, flattenKey]
    decide
  · simp only [flatten, flattenKey]
    decide

theorem flatten_integerKey_pattern_witness :
    isNonNegIntKey "01" = false
    ∧ objMaxIndex [("01", Nested.leafStr "x")] = objMaxIndex [] :=
  ⟨by decide,
   flatten_integerKey_pattern.2.1 "01" (.leafStr "x") [] (by decide)⟩

end TfjsUtil
